import Mathlib

/-!
Shallow embedding of the tmc-gridtone color-extraction and composite-rendering
pipeline (src/colorUtils.js, src/exportUtils.js, plus the grid-display color
fallback from src/components/Grid.jsx).

Modelling conventions:
* JavaScript byte/channel arithmetic is modelled over `Nat`, with the
  `Math.round(s / c)` rounding made explicit as `(2*s + c) / (2*c)`.
* Canvas geometry (coordinates, sizes, alpha) is modelled over `ℚ`, matching
  exact JavaScript number arithmetic on the small values involved.
* Canvas side effects are reified as a list of draw commands (`DrawOp`), and a
  thrown JavaScript exception is an `Except.error`.
* A JavaScript value that may be `undefined` is an `Option`; the `a || b`
  fallback idiom on numbers (where `0` is falsy) is `jsOrN`, and on
  objects/arrays (where only `undefined` is falsy here) it is `Option.getD` /
  an explicit match.
* CSS color strings produced by `rgbaStr` are modelled by their parsed content
  (an `RGBA` record), which is in bijection with the produced string.
-/

namespace Gridtone

/-- An RGB triple as used throughout colorUtils.js (integer channels). -/
structure RGB where
  r : Nat
  g : Nat
  b : Nat
deriving DecidableEq, Repr

/-- JavaScript `Math.round (s / c)` for natural `s` and positive natural `c`
(round half away from zero, which is round half up on nonnegatives). -/
def jsRound (s c : Nat) : Nat := (2 * s + c) / (2 * c)

/-! ## colorUtils.js : averageColorFromBitmap -/

/-- The accumulation loop of `averageColorFromBitmap`: walk the flat RGBA byte
buffer with stride 4 and sum the r, g and b bytes. -/
def sumRGB : List Nat → Nat × Nat × Nat
  | r :: g :: b :: _ :: rest =>
    let s := sumRGB rest
    (r + s.1, g + s.2.1, b + s.2.2)
  | _ => (0, 0, 0)

/-- `averageColorFromBitmap` (src/colorUtils.js): mean of each of the r, g, b
channels over the sampled buffer, `Math.round`ed.  `count = data.length / 4`. -/
def averageColorFromBitmap (data : List Nat) : RGB :=
  let s := sumRGB data
  let count := data.length / 4
  ⟨jsRound s.1 count, jsRound s.2.1 count, jsRound s.2.2 count⟩

/-- A single RGBA pixel, used to state theorems about pixel buffers. -/
structure Px where
  r : Nat
  g : Nat
  b : Nat
  a : Nat
deriving DecidableEq, Repr

/-- Flatten a pixel list into the row-major RGBA byte buffer handed to the
color extractors. -/
def flatten : List Px → List Nat
  | [] => []
  | p :: rest => p.r :: p.g :: p.b :: p.a :: flatten rest

/-! ## colorUtils.js : dominantColorsFromBitmap -/

/-- `data[i]` on the byte buffer (in-bounds in every use below). -/
def getByte (data : List Nat) (i : Nat) : Nat := data.getD i 0

/-- The subsampling loop of `dominantColorsFromBitmap`:
`total = (data.length/4)|0`, `step = max(1, floor(total/samples))`, and the
loop `for (i = 0; i < total; i += step)` pushes the point at pixel index `i`,
running `ceil(total/step)` times. -/
def samplePoints (data : List Nat) (samples : Nat) : List RGB :=
  let total := data.length / 4
  let step := max 1 (total / samples)
  (List.range ((total + step - 1) / step)).map (fun j =>
    let idx := j * step * 4
    ⟨getByte data idx, getByte data (idx + 1), getByte data (idx + 2)⟩)

/-- Squared difference of two naturals (one of the two summands is zero). -/
def sqDiff (a b : Nat) : Nat := (a - b) * (a - b) + (b - a) * (b - a)

/-- Squared Euclidean RGB distance, as in `nearest` (src/colorUtils.js). -/
def dist2 (p c : RGB) : Nat := sqDiff p.r c.r + sqDiff p.g c.g + sqDiff p.b c.b

/-- The scan of `nearest`: running best index `bi` and best distance `bd`,
strict `<` so the first-found minimum wins. -/
def nearestAux (p : RGB) : List RGB → Nat → Nat → Nat → Nat
  | [], _, bi, _ => bi
  | c :: rest, i, bi, bd =>
    if dist2 p c < bd then nearestAux p rest (i + 1) i (dist2 p c)
    else nearestAux p rest (i + 1) bi bd

/-- `nearest(centers, p)` (src/colorUtils.js): index of the center nearest to
`p`; the initial best distance is Infinity so the first center always wins the
first comparison. -/
def nearest (centers : List RGB) (p : RGB) : Nat :=
  match centers with
  | [] => 0
  | c :: rest => nearestAux p rest 1 0 (dist2 p c)

/-- Per-cluster statistics of one assignment pass: the `sums[j]` entry
`(r, g, b, count)` accumulated over the points whose nearest center is `j`. -/
def clusterStats (centers pts : List RGB) (j : Nat) : Nat × Nat × Nat × Nat :=
  let assigned := pts.filter (fun p => nearest centers p == j)
  ((assigned.map RGB.r).sum, (assigned.map RGB.g).sum, (assigned.map RGB.b).sum,
    assigned.length)

/-- The center-update loop of one Lloyd iteration: center `j` becomes the
rounded mean of its assigned points when the cluster is nonempty
(`sums[j][3] > 0`) and keeps its previous value otherwise. -/
def updateCentersFrom (centers pts : List RGB) : List RGB → Nat → List RGB
  | [], _ => []
  | c :: rest, j =>
    (let st := clusterStats centers pts j
     if 0 < st.2.2.2 then
       RGB.mk (jsRound st.1 st.2.2.2) (jsRound st.2.1 st.2.2.2)
         (jsRound st.2.2.1 st.2.2.2)
     else c)
    :: updateCentersFrom centers pts rest (j + 1)

/-- One Lloyd iteration of the k-means loop in `dominantColorsFromBitmap`. -/
def kmeansIter (pts centers : List RGB) : List RGB :=
  updateCentersFrom centers pts centers 0

/-- `iters` Lloyd iterations starting from the first `k` sampled points
(`pts.slice(0, k)`). -/
def kmeans (pts : List RGB) (k iters : Nat) : List RGB :=
  (kmeansIter pts)^[iters] (pts.take k)

/-- `centers.map((c, i) => ({c, n: counts[i]}))` where `counts[i]` is the
population of center `i` in one final assignment pass. -/
def pairsAux (centers pts : List RGB) : List RGB → Nat → List (RGB × Nat)
  | [], _ => []
  | c :: rest, j =>
    (c, (pts.filter (fun p => nearest centers p == j)).length)
      :: pairsAux centers pts rest (j + 1)

/-- Stable insertion used to model the (stable) JavaScript
`sort((a, b) => b.n - a.n)`: `a` is placed before the first element whose
population does not exceed `a`'s. -/
def insertDesc (a : RGB × Nat) : List (RGB × Nat) → List (RGB × Nat)
  | [] => [a]
  | b :: rest => if b.2 ≤ a.2 then a :: b :: rest else b :: insertDesc a rest

/-- Stable sort by population descending (equal to any stable sort under the
comparator `(a, b) => b.n - a.n`, which is what `Array.prototype.sort`
guarantees). -/
def sortDesc : List (RGB × Nat) → List (RGB × Nat)
  | [] => []
  | a :: rest => insertDesc a (sortDesc rest)

/-- The `(center, population)` pipeline tail of `dominantColorsFromBitmap`:
final assignment counts, then `.filter(x => x.n > 0).sort(by n desc)
.slice(0, k)`.  Empty when no points were sampled (the early `return []`). -/
def dominantColorsPairs (data : List Nat) (k samples iters : Nat) :
    List (RGB × Nat) :=
  let pts := samplePoints data samples
  if pts.isEmpty then []
  else
    let centers := kmeans pts k iters
    (sortDesc ((pairsAux centers pts centers 0).filter (fun x => 0 < x.2))).take k

/-- `dominantColorsFromBitmap` (src/colorUtils.js), with the bitmap already
sampled into the flat byte buffer `data`.  Stated for a cluster count `k ≥ 1`:
the source would throw for `k = 0` on a nonempty sample set (reading
`sums[0]`, which does not exist). -/
def dominantColorsFromBitmap (data : List Nat) (k samples iters : Nat) :
    List RGB :=
  (dominantColorsPairs data k samples iters).map Prod.fst

/-! ## colorUtils.js : rgbToHex, and the spec's hexToRGB -/

/-- JavaScript `x.toString(16)` on a natural number: lowercase hex digits,
most significant first, a single digit for `x < 16`. -/
def toString16 (n : Nat) : List Char :=
  if _h : n < 16 then [Nat.digitChar n]
  else toString16 (n / 16) ++ [Nat.digitChar (n % 16)]
termination_by n
decreasing_by
  exact Nat.div_lt_self (by omega) (by omega)

/-- JavaScript `s.padStart(2, '0')`. -/
def padStart2 (l : List Char) : List Char := List.replicate (2 - l.length) '0' ++ l

/-- `rgbToHex` (src/colorUtils.js):
`'#' + [r,g,b].map(x => x.toString(16).padStart(2,'0')).join('').toUpperCase()`,
with the string modelled as its character list. -/
def rgbToHex (c : RGB) : List Char :=
  ('#' :: (padStart2 (toString16 c.r) ++ padStart2 (toString16 c.g) ++
    padStart2 (toString16 c.b))).map Char.toUpper

/-- Value of one hex digit character (either case), `none` otherwise, stated
over code points: digits occupy 48-57, uppercase A-F 65-70, lowercase a-f
97-102. -/
def hexVal (c : Char) : Option Nat :=
  let n := c.toNat
  if 48 ≤ n ∧ n ≤ 57 then some (n - 48)
  else if 65 ≤ n ∧ n ≤ 70 then some (n - 55)
  else if 97 ≤ n ∧ n ≤ 102 then some (n - 87)
  else none

/-- Modelled from the spec: the parser `hexToRGB` named by the spec's
round-trip property is not among the provided sources; per the spec it parses
a string of the form `#RRGGBB` (two hex digits per channel) back into the RGB
triple, and is undefined (`none`) on any other shape. -/
def hexToRGB : List Char → Option RGB
  | ['#', c1, c2, c3, c4, c5, c6] =>
    match hexVal c1, hexVal c2, hexVal c3, hexVal c4, hexVal c5, hexVal c6 with
    | some h1, some l1, some h2, some l2, some h3, some l3 =>
      some ⟨h1 * 16 + l1, h2 * 16 + l2, h3 * 16 + l3⟩
    | _, _, _, _, _, _ => none
  | _ => none

/-- Uppercased hex digit for one nibble, as produced by `rgbToHex`. -/
def hexDigitU (d : Nat) : Char := Char.toUpper (Nat.digitChar d)

/-- The two zero-padded uppercase hex digits of one byte. -/
def hexPairU (n : Nat) : List Char := [hexDigitU (n / 16), hexDigitU (n % 16)]

/-! ## Grid.jsx display fallback -/

/-- `toRGB` (src/components/Grid.jsx): destructure with per-channel defaults of
128 after falling back to `FALLBACK = [128, 128, 128]` for a non-array. -/
def toRGB (arr : Option (List Nat)) : RGB :=
  let l := arr.getD [128, 128, 128]
  ⟨l.getD 0 128, l.getD 1 128, l.getD 2 128⟩

/-! ## exportUtils.js : the composite renderer -/

/-- A CSS `rgba(r,g,b,alpha)` string produced by `rgbaStr`, modelled by its
parsed content (the produced string is in bijection with this record). -/
structure RGBA where
  rgb : RGB
  alpha : ℚ
deriving DecidableEq, Repr

/-- `rgbaStr` (src/exportUtils.js): `const [r, g, b] = rgb || [0, 0, 0]` — a
missing color falls back to black before formatting. -/
def rgbaStr (rgb : Option RGB) (alpha : ℚ) : RGBA := ⟨rgb.getD ⟨0, 0, 0⟩, alpha⟩

/-- An axis-aligned rectangle in logical canvas coordinates. -/
structure Rect where
  x : ℚ
  y : ℚ
  w : ℚ
  h : ℚ
deriving DecidableEq, Repr

/-- A drawable image handle: an `HTMLImageElement` exposes `naturalWidth` and
`naturalHeight`, an `ImageBitmap` only `width`/`height`; any of the four may be
absent (`undefined`). -/
structure Img where
  naturalWidth : Option Nat
  naturalHeight : Option Nat
  width : Option Nat
  height : Option Nat
deriving DecidableEq, Repr

/-- One entry of the `tiles` array handed to `exportGrid`: the image handle
`t.img` (absent when the item is corrupt), the average color `t.avg` and the
dominant colors `t.dom` (a missing array is conflated with `[]`, which the
code treats identically via `t.dom && t.dom.length`). -/
structure Tile where
  img : Option Img
  avg : Option RGB
  dom : List RGB
deriving DecidableEq, Repr

/-- The `mode` option of `exportGrid` ('average' | 'dominant'). -/
inductive Mode where
  | average
  | dominant
deriving DecidableEq, Repr

/-- The `overlayMode` option of `exportGrid` ('dot' | 'half' | 'full'). -/
inductive OverlayMode where
  | dot
  | half
  | full
deriving DecidableEq, Repr

/-- The named options of `exportGrid` (background and border colors are kept
abstract: the border flag records only JavaScript truthiness of `border`). -/
structure Cfg where
  columns : Nat
  includeOverlays : Bool
  showColor : Bool
  mode : Mode
  overlayMode : OverlayMode
  overlayAlpha : ℚ
  tileSize : ℚ
  spacing : ℚ
  border : Bool
deriving Repr

/-- The reified canvas draw commands emitted while rendering. -/
inductive DrawOp where
  | image (clip : Rect) (dest : Rect)
  | fillRect (clip : Option Rect) (r : Rect) (c : RGBA)
  | strokeRect (r : Rect)
  | capsule (r : Rect) (rad : ℚ)
  | disk (cx cy rad : ℚ) (c : RGB)
  | diskStroke (cx cy rad : ℚ)
deriving DecidableEq, Repr

/-- JavaScript `a || b` on possibly-undefined numbers: `undefined` and `0` are
falsy. -/
def jsOrN : Option Nat → Option Nat → Option Nat
  | some n, b => if n = 0 then b else some n
  | none, b => b

/-- The square cell rectangle of a tile. -/
def tileRect (x y ts : ℚ) : Rect := ⟨x, y, ts, ts⟩

/-- `drawAspectFillClipped` (src/exportUtils.js).  Reading `naturalWidth` of an
absent handle throws (`Except.error`); a falsy width or height
(`if (!iw || !ih) return`) skips the draw; otherwise the cover-fit destination
rectangle is drawn under a clip to the cell rectangle. -/
def drawAspectFillClipped (img : Option Img) (x y w h : ℚ) :
    Except Unit (List DrawOp) :=
  match img with
  | none => .error ()
  | some im =>
    match jsOrN im.naturalWidth im.width, jsOrN im.naturalHeight im.height with
    | some iw, some ih =>
      if iw = 0 ∨ ih = 0 then .ok []
      else
        let scale := max (w / (iw : ℚ)) (h / (ih : ℚ))
        let dw := (iw : ℚ) * scale
        let dh := (ih : ℚ) * scale
        .ok [DrawOp.image ⟨x, y, w, h⟩ ⟨x + (w - dw) / 2, y + (h - dh) / 2, dw, dh⟩]
    | _, _ => .ok []

/-- The color of stripe `s` in dominant mode:
`const dom = t.dom && t.dom.length ? t.dom : [t.avg, t.avg, t.avg]` followed by
`dom[s] || t.avg`. -/
def stripeColor (t : Tile) (s : Nat) : Option RGB :=
  let dom' : List (Option RGB) :=
    if t.dom.isEmpty then [t.avg, t.avg, t.avg] else t.dom.map some
  match dom'.get? s with
  | some (some c) => some c
  | some none => t.avg
  | none => t.avg

/-- The swatch loop of `drawSwatches`: for color `i`, a filled disk of radius
9 centered at `(x + 8 + 26*i + 9, y + h - 26 + 9)` plus its outline stroke.
Destructuring `const [r, g, b] = colors[i]` of an absent color throws. -/
def swatchOps (x y h : ℚ) : Nat → List (Option RGB) → Except Unit (List DrawOp)
  | _, [] => .ok []
  | i, oc :: rest =>
    match oc with
    | none => .error ()
    | some c =>
      match swatchOps x y h (i + 1) rest with
      | .error e => .error e
      | .ok more =>
        let cx := x + 8 + (i : ℚ) * 26
        let cy := y + h - 8 - 18
        .ok (DrawOp.disk (cx + 9) (cy + 9) 9 c
          :: DrawOp.diskStroke (cx + 9) (cy + 9) 9 :: more)

/-- `drawSwatches` (src/exportUtils.js): a rounded capsule backdrop (drawn
first, with no clip), then one swatch disk per color.  With `pad = 8`,
`circle = 18`, `gap = 8`: the capsule rect is
`(x+2, y+h-30, total+12, 26)` with corner radius 13. -/
def drawSwatches (colors : List (Option RGB)) (x y h : ℚ) :
    Except Unit (List DrawOp) :=
  let total := (colors.length : ℚ) * 18 + ((colors.length : ℚ) - 1) * 8
  match swatchOps x y h 0 colors with
  | .error e => .error e
  | .ok sw => .ok (DrawOp.capsule ⟨x + 2, y + h - 30, total + 12, 26⟩ 13 :: sw)

/-- The overlay block of the `exportGrid` tile loop, emitted only when
`includeOverlays && showColor`.  Dot mode draws swatches (unclipped); half and
full mode fill rectangles under a clip to the cell rectangle. -/
def overlayOps (cfg : Cfg) (t : Tile) (x y : ℚ) : Except Unit (List DrawOp) :=
  if cfg.includeOverlays && cfg.showColor then
    match cfg.overlayMode with
    | OverlayMode.dot =>
      let colors : List (Option RGB) :=
        match cfg.mode with
        | Mode.average => [t.avg]
        | Mode.dominant => if t.dom.isEmpty then [t.avg] else t.dom.map some
      drawSwatches colors x y cfg.tileSize
    | om =>
      match cfg.mode with
      | Mode.average =>
        let r :=
          if om = OverlayMode.half then
            Rect.mk x (y + cfg.tileSize / 2) cfg.tileSize (cfg.tileSize / 2)
          else Rect.mk x y cfg.tileSize cfg.tileSize
        .ok [DrawOp.fillRect (some (tileRect x y cfg.tileSize)) r
          (rgbaStr t.avg cfg.overlayAlpha)]
      | Mode.dominant =>
        let hOv := if om = OverlayMode.half then cfg.tileSize / 2 else cfg.tileSize
        let y0 := if om = OverlayMode.half then y + cfg.tileSize / 2 else y
        let sh := hOv / 3
        .ok ((List.range 3).map (fun (s : Nat) =>
          DrawOp.fillRect (some (tileRect x y cfg.tileSize))
            (Rect.mk x (y0 + (s : ℚ) * sh) cfg.tileSize sh)
            (rgbaStr (stripeColor t s) cfg.overlayAlpha)))
  else .ok []

/-- The cosmetic 1px inset border stroke of each tile, when `border` is
truthy. -/
def borderOps (cfg : Cfg) (x y : ℚ) : List DrawOp :=
  if cfg.border then
    [DrawOp.strokeRect (Rect.mk (x + 1/2) (y + 1/2) (cfg.tileSize - 1) (cfg.tileSize - 1))]
  else []

/-- The body of the `exportGrid` tile loop at cell origin `(x, y)`: the
clipped aspect-fill image draw, the border stroke, then the overlays. -/
def tileOpsAt (cfg : Cfg) (x y : ℚ) (t : Tile) : Except Unit (List DrawOp) :=
  match drawAspectFillClipped t.img x y cfg.tileSize cfg.tileSize with
  | .error e => .error e
  | .ok imgOps =>
    match overlayOps cfg t x y with
    | .error e => .error e
    | .ok oOps => .ok (imgOps ++ borderOps cfg x y ++ oOps)

/-- The flattened raster description `exportGrid` produces: the logical canvas
size and the draw commands of each tile in order (the canvas is flood-filled
with the background color before any tile is drawn; a pixel not covered by any
command keeps that background). -/
structure ExportOut where
  w : ℚ
  h : ℚ
  perTile : List (List DrawOp)
deriving DecidableEq, Repr

/-- The `for (let i = 0; ...)` tile loop of `exportGrid`: tile `i` is placed at
column `i % cols`, row `floor(i / cols)`, cell origin
`(col * (tileSize + spacing), row * (tileSize + spacing))`; the first thrown
error aborts the whole loop. -/
def renderTiles (cfg : Cfg) (cols : Nat) : Nat → List Tile → Except Unit (List (List DrawOp))
  | _, [] => .ok []
  | i, t :: rest =>
    match tileOpsAt cfg ((↑(i % cols) : ℚ) * (cfg.tileSize + cfg.spacing))
        ((↑(i / cols) : ℚ) * (cfg.tileSize + cfg.spacing)) t with
    | .error e => .error e
    | .ok ops =>
      match renderTiles cfg cols (i + 1) rest with
      | .error e => .error e
      | .ok more => .ok (ops :: more)

/-- `exportGrid` (src/exportUtils.js).  `if (!tiles || !tiles.length) return
null` yields `.ok none`; otherwise `cols = max(1, columns)`,
`rows = ceil(tiles.length / cols)`, the logical canvas is
`cols*tileSize + (cols-1)*spacing` by `rows*tileSize + (rows-1)*spacing`, and
the tile loop runs (JPEG encoding of the finished canvas is not modelled). -/
def exportGrid (cfg : Cfg) (tiles : List Tile) : Except Unit (Option ExportOut) :=
  if tiles.isEmpty then .ok none
  else
    let cols := max 1 cfg.columns
    let rows := (tiles.length + cols - 1) / cols
    match renderTiles cfg cols 0 tiles with
    | .error e => .error e
    | .ok per =>
      .ok (some ⟨(cols : ℚ) * cfg.tileSize + ((cols : ℚ) - 1) * cfg.spacing,
        (rows : ℚ) * cfg.tileSize + ((rows : ℚ) - 1) * cfg.spacing, per⟩)

/-! ## Pixel-coverage semantics of draw commands -/

/-- Closed membership of a point in a rectangle. -/
def inRect (px py : ℚ) (r : Rect) : Prop :=
  r.x ≤ px ∧ px ≤ r.x + r.w ∧ r.y ≤ py ∧ py ≤ r.y + r.h

instance (px py : ℚ) (r : Rect) : Decidable (inRect px py r) := by
  unfold inRect; infer_instance

/-- Strict membership (interior of a rectangle). -/
def strictInRect (px py : ℚ) (r : Rect) : Prop :=
  r.x < px ∧ px < r.x + r.w ∧ r.y < py ∧ py < r.y + r.h

instance (px py : ℚ) (r : Rect) : Decidable (strictInRect px py r) := by
  unfold strictInRect; infer_instance

/-- Membership in an optional clip region (no clip restricts nothing). -/
def inClip (px py : ℚ) : Option Rect → Prop
  | some cl => inRect px py cl
  | none => True

instance (px py : ℚ) (o : Option Rect) : Decidable (inClip px py o) := by
  cases o with
  | none => exact isTrue trivial
  | some cl => exact (inferInstance : Decidable (inRect px py cl))

/-- Squared Euclidean distance between two points. -/
def distSq (x1 y1 x2 y2 : ℚ) : ℚ := (x1 - x2) * (x1 - x2) + (y1 - y2) * (y1 - y2)

/-- Whether a draw command can change the pixel at `(px, py)` away from the
background: fills change exactly their (clipped) region, strokes a 1px band
around their path, the capsule its stadium-shaped backdrop. -/
def affects : DrawOp → ℚ → ℚ → Prop
  | DrawOp.image clip dest, px, py => inRect px py dest ∧ inRect px py clip
  | DrawOp.fillRect clip r _, px, py => inRect px py r ∧ inClip px py clip
  | DrawOp.strokeRect r, px, py =>
    inRect px py ⟨r.x - 1/2, r.y - 1/2, r.w + 1, r.h + 1⟩ ∧
      ¬ strictInRect px py ⟨r.x + 1/2, r.y + 1/2, r.w - 1, r.h - 1⟩
  | DrawOp.capsule r rad, px, py =>
    distSq px py (min (max px (r.x + rad)) (r.x + r.w - rad)) (r.y + rad) ≤ rad * rad
  | DrawOp.disk cx cy rad _, px, py => distSq px py cx cy ≤ rad * rad
  | DrawOp.diskStroke cx cy rad, px, py =>
    (rad - 1/2) * (rad - 1/2) ≤ distSq px py cx cy ∧
      distSq px py cx cy ≤ (rad + 1/2) * (rad + 1/2)

instance (op : DrawOp) (px py : ℚ) : Decidable (affects op px py) := by
  cases op <;> dsimp only [affects] <;> infer_instance

/-- The draw commands that the source explicitly clips to the tile cell: the
aspect-fill image draw and the half/full overlay rectangle fills. -/
def isClippedDraw : DrawOp → Bool
  | DrawOp.image _ _ => true
  | DrawOp.fillRect _ _ _ => true
  | _ => false

/-- Whether a draw command is the aspect-fill image draw. -/
def isImageOp : DrawOp → Bool
  | DrawOp.image _ _ => true
  | _ => false

/-- All three channels of a color are bytes. -/
def chanBound (c : RGB) : Prop := c.r ≤ 255 ∧ c.g ≤ 255 ∧ c.b ≤ 255

instance {ε α : Type} [DecidableEq ε] [DecidableEq α] : DecidableEq (Except ε α)
  | Except.error e1, Except.error e2 =>
    match decEq e1 e2 with
    | isTrue h => isTrue (h ▸ rfl)
    | isFalse h => isFalse (fun c => h (Except.error.inj c))
  | Except.error _, Except.ok _ => isFalse (fun c => Except.noConfusion c)
  | Except.ok _, Except.error _ => isFalse (fun c => Except.noConfusion c)
  | Except.ok a1, Except.ok a2 =>
    match decEq a1 a2 with
    | isTrue h => isTrue (h ▸ rfl)
    | isFalse h => isFalse (fun c => h (Except.ok.inj c))

/-- Concrete export configuration used to exercise the layout arithmetic:
3 columns, 100px tiles, 10px spacing, no border and no overlays. -/
def cfgC6 : Cfg := ⟨3, false, false, Mode.average, OverlayMode.dot, 1/2, 100, 10, false⟩

/-- Seven placeholder tiles whose image handles report zero size (so their
cells emit no draw commands). -/
def tilesC6 : List Tile :=
  List.replicate 7 ⟨some ⟨some 0, some 0, none, none⟩, none, []⟩

/-- The raster description `exportGrid cfgC6 tilesC6` produces. -/
def outC6 : ExportOut := ⟨320, 320, List.replicate 7 []⟩

end Gridtone

namespace Gridtone

/-! ## Helper lemmas -/

theorem stripeColor_of_le (t : Tile) (s : Nat) (h : t.dom.length ≤ s) :
    stripeColor t s = t.avg := by
  obtain ⟨img, avg, dom⟩ := t
  simp only at h
  rcases dom with _ | ⟨c, cs⟩
  · rcases s with _ | _ | _ | s <;> rcases avg with _ | v <;> rfl
  · show (match ((c :: cs).map some).get? s with
      | some (some c) => some c
      | some none => avg
      | none => avg) = avg
    have hget : ((c :: cs).map some).get? s = none := by
      apply List.get?_eq_none.mpr
      simpa using h
    rw [hget]

theorem stripeColor_of_lt (t : Tile) (s : Nat) (h : s < t.dom.length) :
    stripeColor t s = t.dom.get? s := by
  obtain ⟨img, avg, dom⟩ := t
  simp only at h
  rcases dom with _ | ⟨c, cs⟩
  · simp at h
  · show (match ((c :: cs).map some).get? s with
      | some (some c) => some c
      | some none => avg
      | none => avg) = (c :: cs).get? s
    rcases hget : (c :: cs).get? s with _ | v
    · exact absurd (List.get?_eq_none.mp hget) (by omega)
    · rw [List.get?_map, hget]
      rfl

theorem sumRGB_flatten (ps : List Px) :
    sumRGB (flatten ps) = ((ps.map Px.r).sum, (ps.map Px.g).sum, (ps.map Px.b).sum) := by
  induction ps with
  | nil => rfl
  | cons p rest ih => simp [flatten, sumRGB, ih]

theorem length_flatten (ps : List Px) : (flatten ps).length = 4 * ps.length := by
  induction ps with
  | nil => rfl
  | cons p rest ih =>
    simp only [flatten, List.length_cons, List.length_cons, ih]
    omega

theorem jsRound_le_255 (s n : Nat) (hn : 0 < n) (hs : s ≤ 255 * n) : jsRound s n ≤ 255 := by
  have h : (2 * s + n) / (2 * n) < 256 := by
    rw [Nat.div_lt_iff_lt_mul (by omega : 0 < 2 * n)]
    omega
  unfold jsRound
  generalize hd : (2 * s + n) / (2 * n) = d at h ⊢
  omega

theorem jsRound_near (s n : Nat) (hn : 0 < n) :
    2 * n * jsRound s n ≤ 2 * s + n ∧ 2 * s ≤ 2 * n * jsRound s n + n := by
  unfold jsRound
  have h1 := Nat.div_add_mod (2 * s + n) (2 * n)
  have h2 : (2 * s + n) % (2 * n) < 2 * n := Nat.mod_lt _ (by omega)
  generalize hd : (2 * s + n) / (2 * n) = d at h1 ⊢
  generalize hm : (2 * s + n) % (2 * n) = m at h1 h2
  generalize hP : 2 * n * d = bigP at h1 ⊢
  omega

theorem jsRound_mul (m v : Nat) (hm : 0 < m) : jsRound (m * v) m = v := by
  unfold jsRound
  have h1 : 2 * (m * v) + m = m * (2 * v + 1) := by ring
  have h2 : 2 * m = m * 2 := by ring
  rw [h1, h2, Nat.mul_div_mul_left _ _ hm]
  omega

theorem averageColorFromBitmap_flatten (ps : List Px) :
    averageColorFromBitmap (flatten ps) =
      ⟨jsRound ((ps.map Px.r).sum) ps.length, jsRound ((ps.map Px.g).sum) ps.length,
        jsRound ((ps.map Px.b).sum) ps.length⟩ := by
  unfold averageColorFromBitmap
  rw [sumRGB_flatten, length_flatten]
  have h4 : 4 * ps.length / 4 = ps.length := by omega
  rw [h4]

theorem sum_map_le_255 {α : Type} (ps : List α) (f : α → Nat) (hb : ∀ p ∈ ps, f p ≤ 255) :
    (ps.map f).sum ≤ 255 * ps.length := by
  have h := List.sum_le_card_nsmul (ps.map f) 255 ?_
  · simpa [List.length_map, smul_eq_mul, mul_comm] using h
  · intro x hx
    obtain ⟨p, hp, rfl⟩ := List.mem_map.mp hx
    exact hb p hp

theorem mem_insertDesc (a x : RGB × Nat) (l : List (RGB × Nat)) :
    x ∈ insertDesc a l ↔ x = a ∨ x ∈ l := by
  induction l with
  | nil => simp [insertDesc]
  | cons b rest ih =>
    by_cases h : b.2 ≤ a.2
    · simp [insertDesc, h]
    · simp only [insertDesc, if_neg h, List.mem_cons, ih]
      tauto

theorem pairwise_insertDesc (a : RGB × Nat) (l : List (RGB × Nat))
    (hl : List.Pairwise (fun p q : RGB × Nat => q.2 ≤ p.2) l) :
    List.Pairwise (fun p q : RGB × Nat => q.2 ≤ p.2) (insertDesc a l) := by
  induction l with
  | nil => simp [insertDesc]
  | cons b rest ih =>
    rcases List.pairwise_cons.mp hl with ⟨hb, hrest⟩
    by_cases h : b.2 ≤ a.2
    · simp only [insertDesc, if_pos h]
      refine List.pairwise_cons.mpr ⟨?_, hl⟩
      intro x hx
      rcases List.mem_cons.mp hx with rfl | hx
      · exact h
      · exact le_trans (hb x hx) h
    · simp only [insertDesc, if_neg h]
      refine List.pairwise_cons.mpr ⟨?_, ih hrest⟩
      intro x hx
      rcases (mem_insertDesc a x rest).mp hx with rfl | hx
      · omega
      · exact hb x hx

theorem pairwise_sortDesc (l : List (RGB × Nat)) :
    List.Pairwise (fun p q : RGB × Nat => q.2 ≤ p.2) (sortDesc l) := by
  induction l with
  | nil => simp [sortDesc]
  | cons a rest ih =>
    simp only [sortDesc]
    exact pairwise_insertDesc a _ ih

theorem mem_sortDesc (x : RGB × Nat) (l : List (RGB × Nat)) :
    x ∈ sortDesc l ↔ x ∈ l := by
  induction l with
  | nil => simp [sortDesc]
  | cons a rest ih => simp [sortDesc, mem_insertDesc, ih]

theorem pairsAux_fst (centers pts : List RGB) :
    ∀ (l : List RGB) (j : Nat) (x : RGB × Nat), x ∈ pairsAux centers pts l j → x.1 ∈ l := by
  intro l
  induction l with
  | nil =>
    intro j x hx
    simp [pairsAux] at hx
  | cons c rest ih =>
    intro j x hx
    simp only [pairsAux, List.mem_cons] at hx
    rcases hx with rfl | hx
    · simp
    · exact List.mem_cons_of_mem _ (ih (j + 1) x hx)

theorem getByte_le (data : List Nat) (hd : ∀ x ∈ data, x ≤ 255) :
    ∀ i, getByte data i ≤ 255 := by
  induction data with
  | nil =>
    intro i
    simp [getByte]
  | cons a rest ih =>
    intro i
    cases i with
    | zero => simpa [getByte] using hd a (by simp)
    | succ n => simpa [getByte] using ih (fun x hx => hd x (List.mem_cons_of_mem _ hx)) n

theorem samplePoints_bound (data : List Nat) (samples : Nat)
    (hd : ∀ x ∈ data, x ≤ 255) :
    ∀ p ∈ samplePoints data samples, chanBound p := by
  intro p hp
  simp only [samplePoints, List.mem_map, List.mem_range] at hp
  obtain ⟨j, _, rfl⟩ := hp
  exact ⟨getByte_le data hd _, getByte_le data hd _, getByte_le data hd _⟩

theorem clusterStats_le (centers pts : List RGB) (j : Nat)
    (hpts : ∀ p ∈ pts, chanBound p) :
    (clusterStats centers pts j).1 ≤ 255 * (clusterStats centers pts j).2.2.2 ∧
    (clusterStats centers pts j).2.1 ≤ 255 * (clusterStats centers pts j).2.2.2 ∧
    (clusterStats centers pts j).2.2.1 ≤ 255 * (clusterStats centers pts j).2.2.2 := by
  unfold clusterStats
  refine ⟨?_, ?_, ?_⟩ <;>
    exact sum_map_le_255 _ _ (fun p hp =>
      by
        have := hpts p (List.mem_of_mem_filter hp)
        unfold chanBound at this
        omega)

theorem updateCentersFrom_bound (centers pts : List RGB)
    (hpts : ∀ p ∈ pts, chanBound p) :
    ∀ (l : List RGB) (j : Nat), (∀ c ∈ l, chanBound c) →
      ∀ c ∈ updateCentersFrom centers pts l j, chanBound c := by
  intro l
  induction l with
  | nil =>
    intro j _ c hc
    simp [updateCentersFrom] at hc
  | cons c0 rest ih =>
    intro j hl c hc
    simp only [updateCentersFrom, List.mem_cons] at hc
    rcases hc with rfl | hc
    · by_cases hpos : 0 < (clusterStats centers pts j).2.2.2
      · rw [if_pos hpos]
        have hcs := clusterStats_le centers pts j hpts
        exact ⟨jsRound_le_255 _ _ hpos hcs.1, jsRound_le_255 _ _ hpos hcs.2.1,
          jsRound_le_255 _ _ hpos hcs.2.2⟩
      · rw [if_neg hpos]
        exact hl c0 (by simp)
    · exact ih (j + 1) (fun x hx => hl x (List.mem_cons_of_mem _ hx)) c hc

theorem kmeans_bound (pts : List RGB) (k iters : Nat) (hpts : ∀ p ∈ pts, chanBound p) :
    ∀ c ∈ kmeans pts k iters, chanBound c := by
  unfold kmeans
  induction iters with
  | zero =>
    intro c hc
    simp only [Function.iterate_zero, id] at hc
    exact hpts c (List.take_subset k pts hc)
  | succ n ih =>
    intro c hc
    rw [Function.iterate_succ_apply'] at hc
    simp only [kmeansIter] at hc
    exact updateCentersFrom_bound _ _ hpts _ 0 ih c hc

theorem not_image_of_not_clipped (op : DrawOp) (h : isClippedDraw op = false) :
    isImageOp op = false := by
  cases op <;> simp_all [isClippedDraw, isImageOp]

theorem swatchOps_unclipped (x y h : ℚ) :
    ∀ (l : List (Option RGB)) (i : Nat) (ops : List DrawOp),
      swatchOps x y h i l = Except.ok ops → ∀ op ∈ ops, isClippedDraw op = false := by
  intro l
  induction l with
  | nil =>
    intro i ops hok op hop
    simp only [swatchOps, Except.ok.injEq] at hok
    rw [← hok] at hop
    simp at hop
  | cons oc rest ih =>
    intro i ops hok op hop
    rcases oc with _ | c
    · simp [swatchOps] at hok
    simp only [swatchOps] at hok
    rcases h2 : swatchOps x y h (i + 1) rest with e | more
    · rw [h2] at hok
      cases hok
    rw [h2] at hok
    injection hok with h3
    rw [← h3] at hop
    rcases List.mem_cons.mp hop with rfl | hop
    · rfl
    rcases List.mem_cons.mp hop with rfl | hop
    · rfl
    · exact ih (i + 1) more h2 op hop

theorem drawSwatches_unclipped (colors : List (Option RGB)) (x y h : ℚ)
    (ops : List DrawOp) (hok : drawSwatches colors x y h = Except.ok ops) :
    ∀ op ∈ ops, isClippedDraw op = false := by
  simp only [drawSwatches] at hok
  rcases h2 : swatchOps x y h 0 colors with e | sw
  · rw [h2] at hok
    cases hok
  rw [h2] at hok
  injection hok with h3
  intro op hop
  rw [← h3] at hop
  rcases List.mem_cons.mp hop with rfl | hop
  · rfl
  · exact swatchOps_unclipped x y h colors 0 sw h2 op hop

theorem overlayOps_shape (cfg : Cfg) (t : Tile) (x y : ℚ) (ops : List DrawOp)
    (hok : overlayOps cfg t x y = Except.ok ops) :
    ∀ op ∈ ops, isImageOp op = false ∧
      (isClippedDraw op = true →
        ∃ r c, op = DrawOp.fillRect (some (tileRect x y cfg.tileSize)) r c) := by
  unfold overlayOps at hok
  by_cases hcond : (cfg.includeOverlays && cfg.showColor) = true
  · rw [if_pos hcond] at hok
    cases hOM : cfg.overlayMode with
    | dot =>
      rw [hOM] at hok
      intro op hop
      have hun := drawSwatches_unclipped _ _ _ _ ops hok op hop
      exact ⟨not_image_of_not_clipped op hun, fun hcl => absurd hcl (by simp [hun])⟩
    | half =>
      rw [hOM] at hok
      cases hM : cfg.mode with
      | average =>
        rw [hM] at hok
        injection hok with h3
        intro op hop
        rw [← h3] at hop
        rcases List.mem_cons.mp hop with rfl | hop
        · exact ⟨rfl, fun _ => ⟨_, _, rfl⟩⟩
        · simp at hop
      | dominant =>
        rw [hM] at hok
        injection hok with h3
        intro op hop
        rw [← h3] at hop
        obtain ⟨s, _, rfl⟩ := List.mem_map.mp hop
        exact ⟨rfl, fun _ => ⟨_, _, rfl⟩⟩
    | full =>
      rw [hOM] at hok
      cases hM : cfg.mode with
      | average =>
        rw [hM] at hok
        injection hok with h3
        intro op hop
        rw [← h3] at hop
        rcases List.mem_cons.mp hop with rfl | hop
        · exact ⟨rfl, fun _ => ⟨_, _, rfl⟩⟩
        · simp at hop
      | dominant =>
        rw [hM] at hok
        injection hok with h3
        intro op hop
        rw [← h3] at hop
        obtain ⟨s, _, rfl⟩ := List.mem_map.mp hop
        exact ⟨rfl, fun _ => ⟨_, _, rfl⟩⟩
  · rw [if_neg hcond] at hok
    injection hok with h3
    intro op hop
    rw [← h3] at hop
    simp at hop

theorem drawAspectFillClipped_ops (img : Option Img) (x y w h : ℚ) (ops : List DrawOp)
    (hok : drawAspectFillClipped img x y w h = Except.ok ops) :
    ∀ op ∈ ops, ∃ dest, op = DrawOp.image ⟨x, y, w, h⟩ dest := by
  rcases img with _ | im
  · cases hok
  simp only [drawAspectFillClipped] at hok
  split at hok
  · split at hok
    · injection hok with h3
      intro op hop
      rw [← h3] at hop
      simp at hop
    · injection hok with h3
      intro op hop
      rw [← h3] at hop
      rcases List.mem_cons.mp hop with rfl | hop
      · exact ⟨_, rfl⟩
      · simp at hop
  · injection hok with h3
    intro op hop
    rw [← h3] at hop
    simp at hop

theorem renderTiles_length (cfg : Cfg) (cols : Nat) :
    ∀ (l : List Tile) (i : Nat) (per : List (List DrawOp)),
      renderTiles cfg cols i l = Except.ok per → per.length = l.length := by
  intro l
  induction l with
  | nil =>
    intro i per h
    simp only [renderTiles, Except.ok.injEq] at h
    rw [← h]
    rfl
  | cons t rest ih =>
    intro i per h
    simp only [renderTiles] at h
    rcases h1 : tileOpsAt cfg ((↑(i % cols) : ℚ) * (cfg.tileSize + cfg.spacing))
        ((↑(i / cols) : ℚ) * (cfg.tileSize + cfg.spacing)) t with e | ops
    · rw [h1] at h
      cases h
    rw [h1] at h
    rcases h2 : renderTiles cfg cols (i + 1) rest with e | more
    · rw [h2] at h
      cases h
    rw [h2] at h
    injection h with h3
    rw [← h3]
    simp [ih (i + 1) more h2]

theorem renderTiles_get (cfg : Cfg) (cols : Nat) :
    ∀ (l : List Tile) (i0 : Nat) (per : List (List DrawOp)),
      renderTiles cfg cols i0 l = Except.ok per →
      ∀ (j : Nat) (t : Tile) (ops : List DrawOp),
        l.get? j = some t → per.get? j = some ops →
        tileOpsAt cfg ((↑((i0 + j) % cols) : ℚ) * (cfg.tileSize + cfg.spacing))
          ((↑((i0 + j) / cols) : ℚ) * (cfg.tileSize + cfg.spacing)) t = Except.ok ops := by
  intro l
  induction l with
  | nil =>
    intro i0 per h j t ops ht hops
    simp at ht
  | cons t0 rest ih =>
    intro i0 per h j t ops ht hops
    simp only [renderTiles] at h
    rcases h1 : tileOpsAt cfg ((↑(i0 % cols) : ℚ) * (cfg.tileSize + cfg.spacing))
        ((↑(i0 / cols) : ℚ) * (cfg.tileSize + cfg.spacing)) t0 with e | ops0
    · rw [h1] at h
      cases h
    rw [h1] at h
    rcases h2 : renderTiles cfg cols (i0 + 1) rest with e | more
    · rw [h2] at h
      cases h
    rw [h2] at h
    injection h with h3
    rw [← h3] at hops
    cases j with
    | zero =>
      have ht0 : t0 = t := by simpa using ht
      have hops0 : ops0 = ops := by simpa using hops
      rw [← ht0, ← hops0]
      simpa using h1
    | succ n =>
      have ht' : rest.get? n = some t := by simpa using ht
      have hops' : more.get? n = some ops := by simpa using hops
      have hrec := ih (i0 + 1) more h2 n t ops ht' hops'
      rwa [show i0 + 1 + n = i0 + (n + 1) from by omega] at hrec

theorem toString16_lt16 (n : Nat) (h : n < 16) : toString16 n = [Nat.digitChar n] := by
  unfold toString16
  rw [dif_pos h]

theorem padStart2_toString16 (n : Nat) (h : n ≤ 255) :
    padStart2 (toString16 n) = [Nat.digitChar (n / 16), Nat.digitChar (n % 16)] := by
  by_cases h16 : n < 16
  · rw [toString16_lt16 n h16, Nat.div_eq_of_lt h16, Nat.mod_eq_of_lt h16]
    rfl
  · have hq : n / 16 < 16 := by omega
    rw [show toString16 n = toString16 (n / 16) ++ [Nat.digitChar (n % 16)] from by
      conv_lhs => rw [toString16]
      rw [dif_neg h16]]
    rw [toString16_lt16 _ hq]
    rfl

theorem hexVal_hexDigitU (d : Nat) (h : d < 16) : hexVal (hexDigitU d) = some d := by
  have hall : ∀ d' < 16, hexVal (hexDigitU d') = some d' := by decide
  exact hall d h

theorem hexDigitU_class (d : Nat) (h : d < 16) :
    (hexDigitU d).isDigit = true ∨ ('A' ≤ hexDigitU d ∧ hexDigitU d ≤ 'F') := by
  have hall : ∀ d' < 16,
      (hexDigitU d').isDigit = true ∨ ('A' ≤ hexDigitU d' ∧ hexDigitU d' ≤ 'F') := by decide
  exact hall d h

theorem hexToRGB_sevenChars (c1 c2 c3 c4 c5 c6 : Char) (v1 v2 v3 v4 v5 v6 : Nat)
    (h1 : hexVal c1 = some v1) (h2 : hexVal c2 = some v2) (h3 : hexVal c3 = some v3)
    (h4 : hexVal c4 = some v4) (h5 : hexVal c5 = some v5) (h6 : hexVal c6 = some v6) :
    hexToRGB ['#', c1, c2, c3, c4, c5, c6] =
      some ⟨v1 * 16 + v2, v3 * 16 + v4, v5 * 16 + v6⟩ := by
  simp only [hexToRGB, h1, h2, h3, h4, h5, h6]

theorem rgbToHex_form (r g b : Nat) (hr : r ≤ 255) (hg : g ≤ 255) (hb : b ≤ 255) :
    rgbToHex ⟨r, g, b⟩ = '#' :: (hexPairU r ++ hexPairU g ++ hexPairU b) := by
  unfold rgbToHex
  rw [padStart2_toString16 _ hr, padStart2_toString16 _ hg, padStart2_toString16 _ hb]
  simp [hexPairU, hexDigitU, show Char.toUpper '#' = '#' from by decide]

/-! ## Claim theorems -/

/-- C7: calling the renderer with an empty item list is a no-op that resolves
to `null` rather than throwing, and no canvas (hence no drawing) is produced:
`exportGrid` returns `.ok none` for every configuration. -/
theorem c7_empty_render (cfg : Cfg) : exportGrid cfg [] = Except.ok none := rfl

/-- C4 counterexample: at the rendering interface of the export path, the
defensive fallback color of `rgbaStr` for an absent color is black `(0,0,0)`,
which is not the mid-gray triple `(128,128,128)` the claim states. -/
theorem c4_counterexample :
    rgbaStr none (1/2) = ⟨⟨0, 0, 0⟩, 1/2⟩ ∧ RGB.mk 0 0 0 ≠ RGB.mk 128 128 128 := by
  exact ⟨rfl, by decide⟩

/-- C4 (amended): when color data is missing at the export rendering interface
(`rgbaStr`, including a stripe whose color and averageColor are both absent),
the defensive fallback is black `(0,0,0)`; the mid-gray `(128,128,128)`
fallback exists only in the interactive display layer (`toRGB`, Grid.jsx). -/
theorem c4_fallback_black (α : ℚ) (t : Tile) (s : Nat)
    (havg : t.avg = none) (hs : t.dom.length ≤ s) :
    rgbaStr none α = ⟨⟨0, 0, 0⟩, α⟩ ∧
    stripeColor t s = none ∧
    rgbaStr (stripeColor t s) α = ⟨⟨0, 0, 0⟩, α⟩ ∧
    toRGB none = ⟨128, 128, 128⟩ := by
  have h1 : stripeColor t s = none := (stripeColor_of_le t s hs).trans havg
  exact ⟨rfl, h1, by rw [h1]; rfl, rfl⟩

/-- C4 witness: the amended fallback behavior at a concrete corrupt tile. -/
theorem c4_fallback_black_witness :
    rgbaStr (stripeColor ⟨none, none, []⟩ 1) (1/2) = ⟨⟨0, 0, 0⟩, 1/2⟩ :=
  (c4_fallback_black (1/2) ⟨none, none, []⟩ 1 rfl (by decide)).2.2.1

/-- C1 counterexample: with `dominantColors = [[1,2,3]]` and
`averageColor = [10,20,30]`, the claim says the 2nd and 3rd stripes reuse the
1st dominant color `[1,2,3]`; the code instead fills them with the average
color `[10,20,30]`. -/
theorem c1_counterexample :
    exportGrid ⟨1, true, true, Mode.dominant, OverlayMode.full, 1/2, 6, 0, false⟩
        [⟨some ⟨some 6, some 6, none, none⟩, some ⟨10, 20, 30⟩, [⟨1, 2, 3⟩]⟩] =
      Except.ok (some ⟨6, 6,
        [[DrawOp.image ⟨0, 0, 6, 6⟩ ⟨0, 0, 6, 6⟩,
          DrawOp.fillRect (some ⟨0, 0, 6, 6⟩) ⟨0, 0, 6, 2⟩ ⟨⟨1, 2, 3⟩, 1/2⟩,
          DrawOp.fillRect (some ⟨0, 0, 6, 6⟩) ⟨0, 2, 6, 2⟩ ⟨⟨10, 20, 30⟩, 1/2⟩,
          DrawOp.fillRect (some ⟨0, 0, 6, 6⟩) ⟨0, 4, 6, 2⟩ ⟨⟨10, 20, 30⟩, 1/2⟩]]⟩) ∧
    RGB.mk 10 20 30 ≠ RGB.mk 1 2 3 := by
  constructor
  · simp only [exportGrid, renderTiles, tileOpsAt, drawAspectFillClipped, jsOrN, overlayOps,
      borderOps, drawSwatches, swatchOps, stripeColor, rgbaStr, tileRect, List.range_succ,
      List.range_zero, List.isEmpty_cons, List.map_append, List.map_cons, List.map_nil,
      show OverlayMode.full ≠ OverlayMode.half from by decide]
    norm_num
  · decide

/-- C1 (amended): in the HALF/FULL dominant-mode stripe rendering, a stripe
index inside `dominantColors` uses that dominant color, and every missing
stripe (index at or beyond the end of a nonempty `dominantColors`) falls back
directly to `averageColor` — not to the nearest available dominant color;
when `dominantColors` is empty all three stripes fall back to `averageColor`. -/
theorem c1_stripe_fallback (t : Tile) (s : Nat) :
    (t.dom = [] → stripeColor t s = t.avg) ∧
    (s < t.dom.length → stripeColor t s = t.dom.get? s) ∧
    (t.dom ≠ [] → t.dom.length ≤ s → stripeColor t s = t.avg) ∧
    (∀ (cfg : Cfg) (x y : ℚ), cfg.includeOverlays = true → cfg.showColor = true →
      cfg.mode = Mode.dominant → cfg.overlayMode = OverlayMode.full →
      overlayOps cfg t x y = Except.ok ((List.range 3).map (fun (j : Nat) =>
        DrawOp.fillRect (some (tileRect x y cfg.tileSize))
          (Rect.mk x (y + (j : ℚ) * (cfg.tileSize / 3)) cfg.tileSize (cfg.tileSize / 3))
          (rgbaStr (stripeColor t j) cfg.overlayAlpha)))) := by
  refine ⟨?_, ?_, ?_, ?_⟩
  · intro h
    exact stripeColor_of_le t s (by simp [h])
  · exact stripeColor_of_lt t s
  · intro _ h
    exact stripeColor_of_le t s h
  · intro cfg x y hio hsc hm hom
    simp only [overlayOps, hio, hsc, hm, hom, Bool.and_self, if_true]
    simp only [show (if OverlayMode.full = OverlayMode.half then y + cfg.tileSize / 2 else y) = y
        from if_neg (by decide),
      show (if OverlayMode.full = OverlayMode.half then cfg.tileSize / 2 else cfg.tileSize) =
          cfg.tileSize
        from if_neg (by decide)]

/-- C1 witness: with one dominant color present, the 2nd stripe of a concrete
tile falls back to the average color. -/
theorem c1_stripe_fallback_witness :
    stripeColor ⟨none, some ⟨10, 20, 30⟩, [⟨1, 2, 3⟩]⟩ 1 = some ⟨10, 20, 30⟩ :=
  (c1_stripe_fallback ⟨none, some ⟨10, 20, 30⟩, [⟨1, 2, 3⟩]⟩ 1).2.2.1
    (by decide) (by decide)

/-- C5: for every pixel buffer and every cluster count K ≥ 1 (the source
throws for K = 0 on a nonempty sample, so 0 is not a valid cluster count),
`dominantColorsFromBitmap` returns the colors of its `(center, population)`
pairs, of which there are at most K, every returned pair has a positive
final-assignment population, the pairs are sorted by population descending,
and every returned entry is an RGB triple of integer (byte) channels. -/
theorem c5_dominant_postconditions (data : List Nat) (k samples iters : Nat)
    (_hk : 1 ≤ k) (hd : ∀ x ∈ data, x ≤ 255) :
    dominantColorsFromBitmap data k samples iters =
      (dominantColorsPairs data k samples iters).map Prod.fst ∧
    (dominantColorsPairs data k samples iters).length ≤ k ∧
    (∀ pr ∈ dominantColorsPairs data k samples iters, 0 < pr.2) ∧
    List.Pairwise (fun p q : RGB × Nat => q.2 ≤ p.2)
      (dominantColorsPairs data k samples iters) ∧
    (∀ pr ∈ dominantColorsPairs data k samples iters, chanBound pr.1) := by
  by_cases hE : (samplePoints data samples).isEmpty
  · refine ⟨rfl, ?_, ?_, ?_, ?_⟩ <;> simp [dominantColorsPairs, hE]
  · have hpairs : dominantColorsPairs data k samples iters =
        (sortDesc ((pairsAux (kmeans (samplePoints data samples) k iters)
          (samplePoints data samples)
          (kmeans (samplePoints data samples) k iters) 0).filter
            (fun x => 0 < x.2))).take k := by
      simp [dominantColorsPairs, hE]
    refine ⟨rfl, ?_, ?_, ?_, ?_⟩
    · rw [hpairs]
      simp only [List.length_take]
      exact min_le_left _ _
    · intro pr hpr
      rw [hpairs] at hpr
      have h1 := List.take_subset _ _ hpr
      have h2 := (mem_sortDesc _ _).mp h1
      have h3 := List.mem_filter.mp h2
      simpa using h3.2
    · rw [hpairs]
      exact (pairwise_sortDesc _).sublist (List.take_sublist _ _)
    · intro pr hpr
      rw [hpairs] at hpr
      have h1 := List.take_subset _ _ hpr
      have h2 := (mem_sortDesc _ _).mp h1
      have h3 := (List.mem_filter.mp h2).1
      have h4 := pairsAux_fst _ _ _ 0 pr h3
      exact kmeans_bound _ k iters (samplePoints_bound data samples hd) pr.1 h4

/-- C5 witness: the postconditions at a concrete two-pixel buffer with the
default parameters K = 3, sample cap 4000, 8 iterations. -/
theorem c5_dominant_postconditions_witness :
    (∀ pr ∈ dominantColorsPairs [10, 20, 30, 255, 200, 100, 50, 255] 3 4000 8, 0 < pr.2) ∧
    List.Pairwise (fun p q : RGB × Nat => q.2 ≤ p.2)
      (dominantColorsPairs [10, 20, 30, 255, 200, 100, 50, 255] 3 4000 8) :=
  ⟨(c5_dominant_postconditions [10, 20, 30, 255, 200, 100, 50, 255] 3 4000 8
      (by norm_num) (by decide)).2.2.1,
    (c5_dominant_postconditions [10, 20, 30, 255, 200, 100, 50, 255] 3 4000 8
      (by norm_num) (by decide)).2.2.2.1⟩

/-- C6 counterexample: with columns=3, 7 items, tileSize=100, spacing=10 the
logical canvas is 320x320, not the 330x320 the claim states (3*100 + 2*10 =
320). -/
theorem c6_counterexample :
    exportGrid cfgC6 tilesC6 = Except.ok (some outC6) ∧
    outC6.w = 320 ∧ (320 : ℚ) ≠ 330 := by
  refine ⟨?_, rfl, by norm_num⟩
  simp only [cfgC6, tilesC6, outC6, List.replicate, exportGrid, renderTiles, tileOpsAt,
    drawAspectFillClipped, jsOrN, overlayOps, borderOps, List.isEmpty_cons]
  norm_num

/-- C6 (amended): for a nonempty item list and columns >= 1, `exportGrid`
places the i-th item at row floor(i/columns), column i mod columns (cell
origin scaled by tileSize + spacing), and the logical canvas is
width = columns*tileSize + (columns-1)*spacing,
height = rows*tileSize + (rows-1)*spacing with rows = ceil(itemCount/columns);
the concrete example columns=3, 7 items, tileSize=100, spacing=10 therefore
yields a 320x320 canvas (the claimed 330 width contradicts the claim's own
formula). -/
theorem c6_layout (cfg : Cfg) (tiles : List Tile) (out : ExportOut)
    (hne : tiles ≠ []) (hc : 1 ≤ cfg.columns)
    (hok : exportGrid cfg tiles = Except.ok (some out)) :
    out.w = (cfg.columns : ℚ) * cfg.tileSize + ((cfg.columns : ℚ) - 1) * cfg.spacing ∧
    out.h = (((tiles.length + cfg.columns - 1) / cfg.columns : Nat) : ℚ) * cfg.tileSize +
      ((((tiles.length + cfg.columns - 1) / cfg.columns : Nat) : ℚ) - 1) * cfg.spacing ∧
    out.perTile.length = tiles.length ∧
    (∀ (j : Nat) (t : Tile) (ops : List DrawOp),
      tiles.get? j = some t → out.perTile.get? j = some ops →
      tileOpsAt cfg ((↑(j % cfg.columns) : ℚ) * (cfg.tileSize + cfg.spacing))
        ((↑(j / cfg.columns) : ℚ) * (cfg.tileSize + cfg.spacing)) t = Except.ok ops) := by
  have hEm : ¬ tiles.isEmpty = true := by
    cases tiles
    · exact absurd rfl hne
    · simp
  have hmax : max 1 cfg.columns = cfg.columns := Nat.max_eq_right hc
  unfold exportGrid at hok
  rw [if_neg hEm, hmax] at hok
  simp only [] at hok
  rcases hr : renderTiles cfg cfg.columns 0 tiles with e | per
  · rw [hr] at hok
    cases hok
  rw [hr] at hok
  injection hok with hok1
  injection hok1 with hok2
  rw [← hok2]
  refine ⟨rfl, rfl, renderTiles_length cfg cfg.columns tiles 0 per hr, ?_⟩
  intro j t ops ht hops
  have := renderTiles_get cfg cfg.columns tiles 0 per hr j t ops ht hops
  simpa using this

/-- C6 witness: the amended layout at columns=3 with 7 items, tileSize=100,
spacing=10 — the canvas width evaluates to 320. -/
theorem c6_layout_witness :
    outC6.w = (cfgC6.columns : ℚ) * cfgC6.tileSize +
      ((cfgC6.columns : ℚ) - 1) * cfgC6.spacing :=
  (c6_layout cfgC6 tilesC6 outC6 (by decide) (by decide)
    (by
      simp only [cfgC6, tilesC6, outC6, List.replicate, exportGrid, renderTiles, tileOpsAt,
        drawAspectFillClipped, jsOrN, overlayOps, borderOps, List.isEmpty_cons]
      norm_num)).1

/-- C8: on a nonempty buffer of RGBA pixels, `averageColorFromBitmap` returns
exactly the per-channel arithmetic mean rounded to the nearest integer (the
rounding characterized by `|2*n*result - 2*sum| ≤ n`), the result is in
[0,255] per channel for byte-valued input, the alpha channel has no influence,
and on a uniform buffer of color C it returns exactly C. -/
theorem c8_average (ps : List Px) (hne : ps ≠ [])
    (hb : ∀ p ∈ ps, p.r ≤ 255 ∧ p.g ≤ 255 ∧ p.b ≤ 255) :
    averageColorFromBitmap (flatten ps) =
      ⟨jsRound ((ps.map Px.r).sum) ps.length, jsRound ((ps.map Px.g).sum) ps.length,
        jsRound ((ps.map Px.b).sum) ps.length⟩ ∧
    ((2 * ps.length * jsRound ((ps.map Px.r).sum) ps.length ≤ 2 * (ps.map Px.r).sum + ps.length ∧
        2 * (ps.map Px.r).sum ≤ 2 * ps.length * jsRound ((ps.map Px.r).sum) ps.length + ps.length) ∧
      (2 * ps.length * jsRound ((ps.map Px.g).sum) ps.length ≤ 2 * (ps.map Px.g).sum + ps.length ∧
        2 * (ps.map Px.g).sum ≤ 2 * ps.length * jsRound ((ps.map Px.g).sum) ps.length + ps.length) ∧
      (2 * ps.length * jsRound ((ps.map Px.b).sum) ps.length ≤ 2 * (ps.map Px.b).sum + ps.length ∧
        2 * (ps.map Px.b).sum ≤ 2 * ps.length * jsRound ((ps.map Px.b).sum) ps.length + ps.length)) ∧
    ((averageColorFromBitmap (flatten ps)).r ≤ 255 ∧
      (averageColorFromBitmap (flatten ps)).g ≤ 255 ∧
      (averageColorFromBitmap (flatten ps)).b ≤ 255) ∧
    (∀ f : Px → Nat,
      averageColorFromBitmap (flatten (ps.map (fun p => ⟨p.r, p.g, p.b, f p⟩))) =
        averageColorFromBitmap (flatten ps)) ∧
    (∀ (c : Px) (m : Nat), 0 < m →
      averageColorFromBitmap (flatten (List.replicate m c)) = ⟨c.r, c.g, c.b⟩) := by
  have hlen : 0 < ps.length := List.length_pos.mpr hne
  have heq := averageColorFromBitmap_flatten ps
  refine ⟨heq, ⟨?_, ?_, ?_⟩, ?_, ?_, ?_⟩
  · exact jsRound_near _ _ hlen
  · exact jsRound_near _ _ hlen
  · exact jsRound_near _ _ hlen
  · rw [heq]
    exact ⟨jsRound_le_255 _ _ hlen (sum_map_le_255 ps Px.r (fun p hp => (hb p hp).1)),
      jsRound_le_255 _ _ hlen (sum_map_le_255 ps Px.g (fun p hp => (hb p hp).2.1)),
      jsRound_le_255 _ _ hlen (sum_map_le_255 ps Px.b (fun p hp => (hb p hp).2.2))⟩
  · intro f
    rw [averageColorFromBitmap_flatten, heq]
    simp [List.map_map, Function.comp_def]
  · intro c m hm
    rw [averageColorFromBitmap_flatten]
    simp only [List.map_replicate, List.sum_replicate, List.length_replicate, smul_eq_mul]
    rw [jsRound_mul _ _ hm, jsRound_mul _ _ hm, jsRound_mul _ _ hm]

/-- C8 witness: the range bounds on a concrete two-pixel buffer. -/
theorem c8_average_witness :
    (averageColorFromBitmap (flatten [⟨10, 20, 30, 40⟩, ⟨20, 30, 40, 50⟩])).r ≤ 255 ∧
    (averageColorFromBitmap (flatten [⟨10, 20, 30, 40⟩, ⟨20, 30, 40, 50⟩])).g ≤ 255 ∧
    (averageColorFromBitmap (flatten [⟨10, 20, 30, 40⟩, ⟨20, 30, 40, 50⟩])).b ≤ 255 :=
  (c8_average [⟨10, 20, 30, 40⟩, ⟨20, 30, 40, 50⟩] (by decide) (by decide)).2.2.1

/-- C9: for byte-valued channels, `rgbToHex` produces an uppercase string of
the form #RRGGBB (seven characters: '#' then two zero-padded uppercase hex
digits per channel), and parsing it back with `hexToRGB` recovers exactly the
input triple. -/
theorem c9_hex_roundtrip (r g b : Nat) (hr : r ≤ 255) (hg : g ≤ 255) (hb : b ≤ 255) :
    rgbToHex ⟨r, g, b⟩ = '#' :: (hexPairU r ++ hexPairU g ++ hexPairU b) ∧
    (rgbToHex ⟨r, g, b⟩).length = 7 ∧
    (∀ ch ∈ rgbToHex ⟨r, g, b⟩, ch = '#' ∨ ch.isDigit = true ∨ ('A' ≤ ch ∧ ch ≤ 'F')) ∧
    hexToRGB (rgbToHex ⟨r, g, b⟩) = some ⟨r, g, b⟩ := by
  have hform := rgbToHex_form r g b hr hg hb
  refine ⟨hform, ?_, ?_, ?_⟩
  · rw [hform]
    simp [hexPairU]
  · rw [hform]
    intro ch hch
    simp only [hexPairU, List.mem_cons, List.mem_append, List.mem_singleton,
      List.not_mem_nil, or_false] at hch
    have haux : ∀ x : Nat, x < 16 → ch = hexDigitU x →
        ch = '#' ∨ ch.isDigit = true ∨ ('A' ≤ ch ∧ ch ≤ 'F') := by
      intro x hx he
      exact Or.inr (he ▸ hexDigitU_class x hx)
    rcases hch with rfl | hch
    · exact Or.inl rfl
    rcases hch with h | h
    · rcases h with h | h
      · rcases h with h | h <;> exact haux _ (by omega) h
      · rcases h with h | h <;> exact haux _ (by omega) h
    · rcases h with h | h <;> exact haux _ (by omega) h
  · rw [hform]
    have hcast : ('#' :: (hexPairU r ++ hexPairU g ++ hexPairU b)) =
        ['#', hexDigitU (r / 16), hexDigitU (r % 16), hexDigitU (g / 16),
          hexDigitU (g % 16), hexDigitU (b / 16), hexDigitU (b % 16)] := by
      simp [hexPairU]
    rw [hcast]
    rw [hexToRGB_sevenChars _ _ _ _ _ _ _ _ _ _ _ _
      (hexVal_hexDigitU _ (by omega)) (hexVal_hexDigitU _ (by omega))
      (hexVal_hexDigitU _ (by omega)) (hexVal_hexDigitU _ (by omega))
      (hexVal_hexDigitU _ (by omega)) (hexVal_hexDigitU _ (by omega))]
    have e1 : r / 16 * 16 + r % 16 = r := by omega
    have e2 : g / 16 * 16 + g % 16 = g := by omega
    have e3 : b / 16 * 16 + b % 16 = b := by omega
    rw [e1, e2, e3]

/-- C9 witness: the round trip at the concrete triple (171, 205, 239). -/
theorem c9_hex_roundtrip_witness :
    hexToRGB (rgbToHex ⟨171, 205, 239⟩) = some ⟨171, 205, 239⟩ :=
  (c9_hex_roundtrip 171 205 239 (by norm_num) (by norm_num) (by norm_num)).2.2.2

/-- C2 counterexample: on a buffer of 16004 bytes (4001 pixels) with the
default sample cap 4000, the stride is `max(1, floor(4001/4000)) = 1` and the
loop collects 4001 points — more than the sample cap. -/
theorem c2_counterexample :
    4000 < (samplePoints (List.replicate 16004 0) 4000).length := by
  simp only [samplePoints, List.length_map, List.length_range, List.length_replicate]
  decide

/-- C2 (amended): `dominantColorsFromBitmap` subsamples at stride
`max(1, floor(totalPixels / sampleCap))`, and the number of collected (R,G,B)
points is `ceil(total / stride)` — which can exceed `sampleCap` but is always
less than `2 * sampleCap`. -/
theorem c2_sample_stride (data : List Nat) (samples : Nat) (hs : 1 ≤ samples) :
    (samplePoints data samples).length =
      (data.length / 4 + max 1 (data.length / 4 / samples) - 1) /
        max 1 (data.length / 4 / samples) ∧
    (samplePoints data samples).length < 2 * samples := by
  have hlen : (samplePoints data samples).length =
      (data.length / 4 + max 1 (data.length / 4 / samples) - 1) /
        max 1 (data.length / 4 / samples) := by
    simp only [samplePoints, List.length_map, List.length_range]
  refine ⟨hlen, ?_⟩
  rw [hlen]
  generalize data.length / 4 = t
  by_cases hq : t / samples = 0
  · have htlt : t < samples := by
      have := (Nat.div_eq_zero_iff (by omega : 0 < samples)).mp hq
      omega
    rw [hq]
    have hmax : max 1 0 = 1 := rfl
    rw [hmax]
    omega
  · have hq1 : 1 ≤ t / samples := Nat.one_le_iff_ne_zero.mpr hq
    rw [Nat.max_eq_right hq1]
    rw [Nat.div_lt_iff_lt_mul (by omega : 0 < t / samples)]
    have hmod := Nat.div_add_mod t samples
    have hmlt : t % samples < samples := Nat.mod_lt _ (by omega)
    obtain ⟨q, hq2⟩ : ∃ q, t / samples = q + 1 := ⟨t / samples - 1, by omega⟩
    obtain ⟨s1, hs2⟩ : ∃ s1, samples = s1 + 1 := ⟨samples - 1, by omega⟩
    rw [hq2, hs2] at hmod ⊢
    rw [hs2] at hmlt
    have hexp : (s1 + 1) * (q + 1) = s1 * q + s1 + q + 1 := by ring
    have hexp2 : 2 * (s1 + 1) * (q + 1) = 2 * (s1 * q) + 2 * s1 + 2 * q + 2 := by ring
    rw [hexp] at hmod
    rw [hexp2]
    generalize s1 * q = bigN at hmod ⊢
    generalize t % (s1 + 1) = m at hmod hmlt
    omega

/-- C2 witness: the amended bound at a concrete 2-pixel buffer with the
default sample cap. -/
theorem c2_sample_stride_witness :
    (samplePoints [10, 20, 30, 255, 200, 100, 50, 255] 4000).length < 2 * 4000 :=
  (c2_sample_stride [10, 20, 30, 255, 200, 100, 50, 255] 4000 (by norm_num)).2

/-- C3 counterexample: a single item with an absent image handle makes
`exportGrid` throw (reading `naturalWidth` of `undefined`), aborting the whole
composite, where the claim says rendering must not abort. -/
theorem c3_counterexample :
    exportGrid ⟨3, false, false, Mode.average, OverlayMode.dot, 1/2, 100, 10, true⟩
      [⟨none, some ⟨1, 2, 3⟩, []⟩] = Except.error () := by
  simp [exportGrid, renderTiles, tileOpsAt, drawAspectFillClipped]

/-- C3 (amended): an item whose image handle is present but reports falsy
(zero or missing) width or height is skipped for drawing — its cell's command
list contains no image draw but still consists of exactly the border stroke
plus whatever overlay painting its color data produces, at the cell's own
position; an absent handle, by contrast, throws and aborts the composite (see
the counterexample). -/
theorem c3_zero_dim_graceful (cfg : Cfg) (x y : ℚ) (t : Tile) (im : Img)
    (oops : List DrawOp) (himg : t.img = some im)
    (hdim : jsOrN im.naturalWidth im.width = none ∨ jsOrN im.naturalWidth im.width = some 0 ∨
      jsOrN im.naturalHeight im.height = none ∨ jsOrN im.naturalHeight im.height = some 0)
    (hov : overlayOps cfg t x y = Except.ok oops) :
    tileOpsAt cfg x y t = Except.ok (borderOps cfg x y ++ oops) ∧
    (∀ op ∈ borderOps cfg x y ++ oops, isImageOp op = false) := by
  have hdraw : drawAspectFillClipped t.img x y cfg.tileSize cfg.tileSize = Except.ok [] := by
    rw [himg]
    rcases hw : jsOrN im.naturalWidth im.width with _ | iw
    · rcases hh : jsOrN im.naturalHeight im.height with _ | ih <;>
        simp only [drawAspectFillClipped, hw, hh]
    rcases hh : jsOrN im.naturalHeight im.height with _ | ih
    · simp only [drawAspectFillClipped, hw, hh]
    have h0 : iw = 0 ∨ ih = 0 := by
      rcases hdim with hcase | hcase | hcase | hcase
      · rw [hcase] at hw
        cases hw
      · rw [hcase] at hw
        injection hw with hw'
        exact Or.inl hw'.symm
      · rw [hcase] at hh
        cases hh
      · rw [hcase] at hh
        injection hh with hh'
        exact Or.inr hh'.symm
    simp only [drawAspectFillClipped, hw, hh]
    rw [if_pos h0]
  constructor
  · unfold tileOpsAt
    rw [hdraw, hov]
    rfl
  · intro op hop
    rcases List.mem_append.mp hop with hop | hop
    · unfold borderOps at hop
      by_cases hb : cfg.border = true
      · rw [if_pos hb] at hop
        rcases List.mem_cons.mp hop with rfl | hop
        · rfl
        · simp at hop
      · rw [if_neg hb] at hop
        simp at hop
    · exact (overlayOps_shape cfg t x y oops hov op hop).1

/-- C3 witness: a zero-size image handle with average-color full overlay at
the origin cell: the image draw is skipped, the border and overlay are kept. -/
theorem c3_zero_dim_graceful_witness :
    tileOpsAt ⟨1, true, true, Mode.average, OverlayMode.full, 1/2, 10, 0, true⟩ 0 0
        ⟨some ⟨some 0, some 0, none, none⟩, some ⟨5, 6, 7⟩, []⟩ =
      Except.ok (borderOps ⟨1, true, true, Mode.average, OverlayMode.full, 1/2, 10, 0, true⟩ 0 0 ++
        [DrawOp.fillRect (some (tileRect 0 0 10)) (Rect.mk 0 0 10 10)
          (rgbaStr (some ⟨5, 6, 7⟩) (1/2))]) :=
  (c3_zero_dim_graceful ⟨1, true, true, Mode.average, OverlayMode.full, 1/2, 10, 0, true⟩ 0 0
    ⟨some ⟨some 0, some 0, none, none⟩, some ⟨5, 6, 7⟩, []⟩ ⟨some 0, some 0, none, none⟩
    [DrawOp.fillRect (some (tileRect 0 0 10)) (Rect.mk 0 0 10 10)
      (rgbaStr (some ⟨5, 6, 7⟩) (1/2))]
    rfl
    (Or.inl (by simp [jsOrN]))
    (by
      simp only [overlayOps, Bool.and_self, if_true]
      rw [if_neg (show ¬ (OverlayMode.full = OverlayMode.half) from by decide)])).1

/-- C10 counterexample: in dot overlay mode on a small (10px) tile, the swatch
fill commands carry no clip and paint outside the tile cell: the swatch disk
centered at (17, -7) covers the pixel (17, -7), which lies strictly outside
the tile rectangle [0,10]x[0,10] — refuting that every overlay fill is
clipped to its tile. -/
theorem c10_counterexample :
    exportGrid ⟨1, true, true, Mode.average, OverlayMode.dot, 1/2, 10, 0, false⟩
        [⟨some ⟨some 10, some 10, none, none⟩, some ⟨1, 2, 3⟩, []⟩] =
      Except.ok (some ⟨10, 10,
        [[DrawOp.image ⟨0, 0, 10, 10⟩ ⟨0, 0, 10, 10⟩,
          DrawOp.capsule ⟨2, -20, 30, 26⟩ 13,
          DrawOp.disk 17 (-7) 9 ⟨1, 2, 3⟩,
          DrawOp.diskStroke 17 (-7) 9]]⟩) ∧
    affects (DrawOp.disk 17 (-7) 9 ⟨1, 2, 3⟩) 17 (-7) ∧
    ¬ inRect 17 (-7) (tileRect 0 0 10) := by
  refine ⟨?_, ?_, ?_⟩
  · simp only [exportGrid, renderTiles, tileOpsAt, drawAspectFillClipped, jsOrN, overlayOps,
      borderOps, drawSwatches, swatchOps, List.isEmpty_cons]
    norm_num
  · show distSq 17 (-7) 17 (-7) ≤ 9 * 9
    unfold distSq
    norm_num
  · unfold inRect tileRect
    norm_num

/-- C10 (amended): within each tile's command list, the aspect-fill image draw
and every half/full overlay rectangle fill are clipped to that tile's cell
rectangle, so none of those commands can change a pixel strictly outside the
cell; the dot-mode swatch commands are exempt (they are drawn without a clip,
see the counterexample). -/
theorem c10_clipped_ops (cfg : Cfg) (x y : ℚ) (t : Tile) (ops : List DrawOp)
    (op : DrawOp) (px py : ℚ)
    (hok : tileOpsAt cfg x y t = Except.ok ops) (hmem : op ∈ ops)
    (hclip : isClippedDraw op = true) (haff : affects op px py) :
    inRect px py (tileRect x y cfg.tileSize) := by
  unfold tileOpsAt at hok
  rcases h1 : drawAspectFillClipped t.img x y cfg.tileSize cfg.tileSize with e | imgOps
  · rw [h1] at hok
    cases hok
  rw [h1] at hok
  rcases h2 : overlayOps cfg t x y with e | oOps
  · rw [h2] at hok
    cases hok
  rw [h2] at hok
  injection hok with h3
  rw [← h3] at hmem
  rcases List.mem_append.mp hmem with hmem | hmem
  · rcases List.mem_append.mp hmem with hmem | hmem
    · obtain ⟨dest, rfl⟩ := drawAspectFillClipped_ops t.img x y _ _ imgOps h1 op hmem
      exact haff.2
    · unfold borderOps at hmem
      by_cases hb : cfg.border = true
      · rw [if_pos hb] at hmem
        rcases List.mem_cons.mp hmem with rfl | hmem
        · simp [isClippedDraw] at hclip
        · simp at hmem
      · rw [if_neg hb] at hmem
        simp at hmem
  · obtain ⟨r, c, rfl⟩ := (overlayOps_shape cfg t x y oOps h2 op hmem).2 hclip
    exact haff.2

/-- C10 witness: a clipped full-overlay fill at a concrete tile only affects
points inside its 10 by 10 cell. -/
theorem c10_clipped_ops_witness :
    inRect 5 9 (tileRect 0 0
      (Cfg.mk 1 true true Mode.average OverlayMode.full (1/2) 10 0 false).tileSize) :=
  c10_clipped_ops ⟨1, true, true, Mode.average, OverlayMode.full, 1/2, 10, 0, false⟩ 0 0
    ⟨some ⟨some 10, some 10, none, none⟩, some ⟨1, 2, 3⟩, []⟩
    [DrawOp.image ⟨0, 0, 10, 10⟩ ⟨0, 0, 10, 10⟩,
      DrawOp.fillRect (some (tileRect 0 0 10)) (Rect.mk 0 0 10 10)
        (rgbaStr (some ⟨1, 2, 3⟩) (1/2))]
    (DrawOp.fillRect (some (tileRect 0 0 10)) (Rect.mk 0 0 10 10)
      (rgbaStr (some ⟨1, 2, 3⟩) (1/2))) 5 9
    (by
      simp only [tileOpsAt, drawAspectFillClipped, jsOrN, overlayOps, borderOps,
        List.isEmpty_cons, show OverlayMode.full ≠ OverlayMode.half from by decide]
      norm_num)
    (by simp)
    rfl
    (by
      constructor
      · unfold inRect
        norm_num
      · show inRect 5 9 (tileRect 0 0 10)
        unfold inRect tileRect
        norm_num)

end Gridtone
